import Mathlib

/-!
Verification of `generate_compile_commands.go` from the bazel-compile-commands
repository.

The program is a linear pipeline: it resolves build-info directories by
shelling out to `bazel info`, fetches the action graph with `bazel aquery`
for the mnemonics `CppCompile` and `ObjcCompile`, transforms each matched
action's compiler argument list, enumerates each target's source files with
`bazel cquery` (deduplicating globally), and emits a `compile_commands.json`
compilation database in the workspace root.

The embedding below is a shallow model of that pipeline.  All external
effects (subprocess execution, JSON parsing of the aquery output, the
temporary directory, file writes) are oracles collected in an `Env` record;
everything else is translated directly from the Go source.  Go standard
library functions used by the program (`strings.HasPrefix`,
`strings.TrimPrefix`, `strings.TrimSpace`, `strings.ReplaceAll`,
`path.Join`/`path.Clean`, `sort.Strings`, `bufio.Scanner` with `ScanLines`,
`encoding/json` marshalling) are modelled as executable Lean functions on
character lists so that concrete runs evaluate inside the kernel.
-/

namespace BCC

/-! ### Character-list string helpers (models of Go stdlib functions) -/

/-- Boolean test that `p` is a leading segment of `l` (chars compared left to right). -/
def listIsPre : List Char → List Char → Bool
  | [], _ => true
  | _ :: _, [] => false
  | p :: ps, c :: cs => p == c && listIsPre ps cs

/-- Model of Go `strings.HasPrefix s pre`. -/
def goHasPre (s pre : String) : Bool := listIsPre pre.data s.data

/-- Model of Go `strings.TrimPrefix s pre`. -/
def goTrimPre (s pre : String) : String :=
  if goHasPre s pre then ⟨s.data.drop pre.data.length⟩ else s

/-- Model of Go `unicode.IsSpace`: the Unicode White_Space code points. -/
def goIsSpace (c : Char) : Bool :=
  c = ' ' || c = '\t' || c = '\n' || c = '\u000B' || c = '\u000C' || c = '\r' ||
  c = '\u0085' || c = '\u00A0' || c = '\u1680' ||
  (0x2000 <= c.toNat && c.toNat <= 0x200A) ||
  c = '\u2028' || c = '\u2029' || c = '\u202F' || c = '\u205F' || c = '\u3000'

/-- Model of Go `strings.TrimSpace`. -/
def goTrimSpace (s : String) : String :=
  ⟨((s.data.dropWhile goIsSpace).reverse.dropWhile goIsSpace).reverse⟩

/-- Split a character list at every occurrence of `sep` (like Go `strings.Split`). -/
def splitCh (sep : Char) : List Char → List (List Char)
  | [] => [[]]
  | c :: rest =>
    match splitCh sep rest with
    | [] => if c = sep then [[], []] else [[c]]
    | g :: gs => if c = sep then [] :: g :: gs else (c :: g) :: gs

/-- Join a list of strings with separator `sep` between consecutive elements. -/
def joinSep (sep : String) : List String → String
  | [] => ""
  | s :: rest =>
    match rest with
    | [] => s
    | _ :: _ => s ++ sep ++ joinSep sep rest

/-- Fuel-indexed worker for `goReplaceAll` (fuel bounds the scan, structural recursion). -/
def replaceFuel (pat rep : List Char) : Nat → List Char → List Char
  | _, [] => []
  | 0, l => l
  | fuel + 1, c :: rest =>
    if listIsPre pat (c :: rest) then
      rep ++ replaceFuel pat rep fuel (rest.drop (pat.length - 1))
    else
      c :: replaceFuel pat rep fuel rest

/-- Model of Go `strings.ReplaceAll s pat rep` for a non-empty pattern:
left-to-right scan, non-overlapping, the replacement itself is not rescanned. -/
def goReplaceAll (s pat rep : String) : String :=
  ⟨replaceFuel pat.data rep.data s.data.length s.data⟩

/-- Lexicographic (code-point, hence UTF-8 byte) order on character lists.
This is Go's byte-wise string comparison for valid UTF-8. -/
def charsLe : List Char → List Char → Bool
  | [], _ => true
  | _ :: _, [] => false
  | a :: as, b :: bs => if a < b then true else if b < a then false else charsLe as bs

/-- Go's `s <= t` on strings (lexicographic byte order). -/
def goStrLe (a b : String) : Bool := charsLe a.data b.data

/-- Insert a string into a sorted list (helper for the model of `sort.Strings`). -/
def insertSorted (s : String) : List String → List String
  | [] => [s]
  | t :: rest => if goStrLe s t then s :: t :: rest else t :: insertSorted s rest

/-- Model of Go `sort.Sort` on a `sort.StringSlice` (line 201 of the source):
a sort of the list in ascending lexicographic order. -/
def goSortStrings : List String → List String
  | [] => []
  | s :: rest => insertSorted s (goSortStrings rest)

/-- One step of Go `path.Clean`'s element processing, on a list of path segments. -/
def cleanStep (rooted : Bool) (acc : List String) (seg : String) : List String :=
  if seg = "" ∨ seg = "." then acc
  else if seg = ".." then
    if acc ≠ [] ∧ acc.getLast? ≠ some ".." then acc.dropLast
    else if rooted then acc
    else acc ++ [".."]
  else acc ++ [seg]

/-- Model of Go `path.Clean`: lexical simplification of a slash-separated path. -/
def goClean (p : String) : String :=
  if p = "" then "."
  else
    let rooted := goHasPre p "/"
    let segs := (splitCh '/' p.data).map (fun l => (⟨l⟩ : String))
    let out := segs.foldl (cleanStep rooted) []
    if rooted then "/" ++ joinSep "/" out
    else if out.isEmpty then "." else joinSep "/" out

/-- Model of Go `path.Join(a, b)`: concatenate with a slash and clean
(empty elements are skipped; the empty join is `""`). -/
def goJoin2 (a b : String) : String :=
  if a = "" then (if b = "" then "" else goClean b)
  else if b = "" then goClean (a ++ "/")
  else goClean (a ++ "/" ++ b)

/-- Drop one trailing carriage return, as Go `bufio.ScanLines` does per line. -/
def dropTrailCR (l : List Char) : List Char :=
  if l.getLast? = some '\r' then l.dropLast else l

/-- Model of reading tokens from a `bufio.Scanner` with `ScanLines` over `s`:
the newline-separated lines, each with a trailing `\r` removed, and with no
empty token after a final newline. -/
def goScanLines (s : String) : List String :=
  let raw := splitCh '\n' s.data
  let raw := if raw.getLast? = some [] then raw.dropLast else raw
  raw.map (fun l => (⟨dropTrailCR l⟩ : String))

/-! ### Data model (translated from the Go type declarations) -/

/-- Subset of the Bazel analysis proto: a configured target (id and label). -/
structure target where
  ID : Int
  Label : String
deriving DecidableEq

/-- Subset of the Bazel analysis proto: an action with its mnemonic and argv. -/
structure action where
  TargetID : Int
  ConfigurationID : Int
  Mnemonic : String
  Arguments : List String
deriving DecidableEq

/-- Subset of the Bazel analysis proto: a dep-set of files. -/
structure depSetOfFiles where
  ID : Int
  DirectArtifactIds : List Int
deriving DecidableEq

/-- The parsed `bazel aquery --output=jsonproto` payload. -/
structure actionGraphContainer where
  Targets : List target
  Actions : List action
  DepSetOfFiles : List depSetOfFiles
deriving DecidableEq

/-- One entry of the `compile_commands.json` output (fields in struct order:
`directory`, `arguments`, `file`). -/
structure compileCommand where
  Directory : String
  Arguments : List String
  File : String
deriving DecidableEq

/-- Internal per-target record: sources, transformed arguments, label.
(The Go code never assigns the `label` field; it stays at its zero value.) -/
structure ccTarget where
  srcs : List String
  args : List String
  label : String
deriving DecidableEq

/-! ### The environment of external effects -/

/-- All external inputs of one run.  `runCommand dir argv` is the trimmed-free
raw standard output of the subprocess, `none` meaning the command failed.
`parseActionGraph` is the `encoding/json` unmarshalling oracle for aquery
output.  `tmpDir` is the result of `os.MkdirTemp`; `writeFileOk` and
`writeOutOk` tell whether the two `WriteFile` calls succeed. -/
structure Env where
  buildWorkspaceDirectory : String
  goos : String
  runCommand : String → List String → Option String
  parseActionGraph : String → Option actionGraphContainer
  tmpDir : Option String
  writeFileOk : Bool
  writeOutOk : Bool

/-! ### Build-info resolver (lines 69–79 and 105–112) -/

/-- The argv built by `getBazelInfo` at line 71.  The Go code passes the
literal string `"workspace"` to `exec.Command` and ignores the parameter
`v` (it only appears in the error message), so the argv is constant. -/
def infoArgv (v : String) : List String := ["bazel", "info", "workspace"]

/-- Model of `getBazelInfo`: run the command in the current workspace
directory and return its trimmed standard output; a command failure is the
panic `could not get %q`. -/
def getBazelInfo (env : Env) (workspace : String) (v : String) : Except String String :=
  match env.runCommand workspace (infoArgv v) with
  | none => .error ("could not get " ++ v)
  | some out => .ok (goTrimSpace out)

/-- Model of `getXcodeSDKPath` (lines 81–91). -/
def getXcodeSDKPath (env : Env) (dir sdk : String) : Except String String :=
  match env.runCommand dir ["xcrun", "--sdk", sdk, "--show-sdk-path"] with
  | none => .error "could not get sdk path"
  | some out => .ok (goTrimSpace out)

/-- Model of `getXcodeDeveloperDir` (lines 93–103). -/
def getXcodeDeveloperDir (env : Env) (dir : String) : Except String String :=
  match env.runCommand dir ["xcode-select", "-p"] with
  | none => .error "could not get xcode developer directory"
  | some out => .ok (goTrimSpace out)

/-- The resolved directories and platform strings computed at lines 105–120. -/
structure ResolvedCtx where
  workspace : String
  executionRoot : String
  outputBaseDir : String
  binDir : String
  xcodeSDKPath : String
  xcodeDeveloperDir : String
deriving DecidableEq

/-- Lines 105–120: determine the workspace (environment variable, else
`bazel info`), resolve the three other build-info values, and on darwin the
two Xcode paths. -/
def resolveCtx (env : Env) : Except String ResolvedCtx := do
  let ws0 := env.buildWorkspaceDirectory
  let workspace ← if ws0 = "" then getBazelInfo env ws0 "workspace" else Except.ok ws0
  let executionRoot ← getBazelInfo env workspace "execution_root"
  let outputBaseDir ← getBazelInfo env workspace "output_base"
  let binDir ← getBazelInfo env workspace "bazel-bin"
  if env.goos = "darwin" then do
    let sdk ← getXcodeSDKPath env executionRoot "macosx"
    let dev ← getXcodeDeveloperDir env executionRoot
    Except.ok ⟨workspace, executionRoot, outputBaseDir, binDir, sdk, dev⟩
  else
    Except.ok ⟨workspace, executionRoot, outputBaseDir, binDir, "", ""⟩

/-! ### Argument transformation (lines 151–188) -/

/-- The darwin placeholder substitution of lines 178–182: on darwin replace
`__BAZEL_XCODE_SDKROOT__` then `__BAZEL_XCODE_DEVELOPER_DIR__`. -/
def platformSubst (goos sdkPath devDir : String) (arg : String) : String :=
  if goos = "darwin" then
    goReplaceAll (goReplaceAll arg "__BAZEL_XCODE_SDKROOT__" sdkPath)
      "__BAZEL_XCODE_DEVELOPER_DIR__" devDir
  else arg

/-- The path-rewriting switch of lines 168–177 (the `-c` case is handled by
the loop itself): `-Ibazel-out…` and `external/…` / `bazel-out…` arguments
are joined under the output-base directory. -/
def rewriteArg (outputBaseDir : String) (arg : String) : String :=
  if goHasPre arg "-Ibazel-out" then "-I" ++ goJoin2 outputBaseDir (goTrimPre arg "-I")
  else if goHasPre arg "external/" || goHasPre arg "bazel-out" then goJoin2 outputBaseDir arg
  else arg

/-- The loop of lines 166–184 over `action.Arguments[1:]`: drop each `-c`
together with the argument following it, rewrite the rest, substitute
platform placeholders, and keep order. -/
def transformLoop (goos sdkPath devDir outputBaseDir : String) : List String → List String
  | [] => []
  | arg :: rest =>
    if arg = "-c" then
      match rest with
      | [] => []
      | _ :: rest2 => transformLoop goos sdkPath devDir outputBaseDir rest2
    else
      platformSubst goos sdkPath devDir (rewriteArg outputBaseDir arg)
        :: transformLoop goos sdkPath devDir outputBaseDir rest

/-- The mnemonic switch of lines 160–165 that seeds the argument list. -/
def mnemonicArgsInit (n : String) : List String :=
  if n = "ObjcCompile" then ["clang", "-xobjective-c++"]
  else if n = "CppCompile" then ["clang", "-xc++"]
  else []

/-- Arguments stored for one matched action: the mnemonic seed followed by
the transformed tail of the action's argv (the loop starts at index 1, so
the first element — the compiler binary — is always dropped). -/
def processActionArgs (goos sdkPath devDir outputBaseDir n : String)
    (argv : List String) : List String :=
  mnemonicArgsInit n ++ transformLoop goos sdkPath devDir outputBaseDir (argv.drop 1)

/-- Specification combinator: the `-c <file>` pairs removed from an argument
list, left to right (the flag and the argument immediately following it). -/
def removeC : List String → List String
  | [] => []
  | a :: rest =>
    if a = "-c" then
      match rest with
      | [] => []
      | _ :: rest2 => removeC rest2
    else a :: removeC rest

/-! ### Action-graph fetcher (lines 125–189) -/

/-- Mutable state shared by the two `queryMnemonic` calls: the target-id
to label map and the per-label `ccTarget` map.  Both Go maps are modelled
as association lists where the most recent insertion is first, matching
map-overwrite semantics. -/
structure StM where
  targetLabels : List (Int × String)
  ccTargets : List (String × ccTarget)

/-- Lines 147–149: record every target's label, later entries overwriting. -/
def addTargets (tl : List (Int × String)) (ts : List target) : List (Int × String) :=
  ts.foldl (fun m t => (t.ID, t.Label) :: m) tl

/-- The argv of the `bazel aquery` invocation at lines 128–133. -/
def aqueryArgv (n : String) : List String :=
  ["bazel", "aquery", "mnemonic(\"" ++ n ++ "\", //...)", "--output=jsonproto"]

/-- The loop of lines 151–188 over the parsed actions: skip non-matching
mnemonics, panic on a target id with no label, otherwise store the
transformed arguments under the action's label (overwriting). -/
def actionsLoop (goos sdkPath devDir outputBaseDir n : String)
    (tl : List (Int × String)) :
    List (String × ccTarget) → List action → Except String (List (String × ccTarget))
  | cc, [] => .ok cc
  | cc, a :: rest =>
    if a.Mnemonic ≠ n then actionsLoop goos sdkPath devDir outputBaseDir n tl cc rest
    else
      match List.lookup a.TargetID tl with
      | none => .error ("missing label (" ++ toString a.TargetID ++ ") in aquery output")
      | some label =>
        actionsLoop goos sdkPath devDir outputBaseDir n tl
          ((label, ⟨[], processActionArgs goos sdkPath devDir outputBaseDir n a.Arguments, ""⟩) :: cc)
          rest

/-- Model of the `queryMnemonic` closure (lines 125–189): run the aquery,
parse it, extend the label map, and process every matched action. -/
def queryMnemonic (env : Env) (workspace outputBaseDir sdkPath devDir : String)
    (n : String) (st : StM) : Except String StM :=
  match env.runCommand workspace (aqueryArgv n) with
  | none => .error "failed to run Bazel"
  | some out =>
    match env.parseActionGraph out with
    | none => .error "failed to parse aquery output"
    | some container =>
      let tl := addTargets st.targetLabels container.Targets
      match actionsLoop env.goos sdkPath devDir outputBaseDir n tl st.ccTargets container.Actions with
      | .error m => .error m
      | .ok cc => .ok ⟨tl, cc⟩

/-! ### Source enumerator (lines 204–252) -/

/-- Lines 204–213: the temporary cquery file; failure of `MkdirTemp` or
`WriteFile` panics, otherwise the path of the written file. -/
def tmpPhase (env : Env) : Except String String :=
  match env.tmpDir with
  | none => .error "failed to create temporary directory"
  | some tmpDir =>
    if env.writeFileOk then .ok (goJoin2 tmpDir "src_cquery.bzl")
    else .error "failed to write cquery file"

/-- The argv of the `bazel cquery` invocation at lines 217–225. -/
def cqueryArgv (label cqueryPath : String) : List String :=
  ["bazel", "cquery", "kind(\"source file\", deps(" ++ label ++ "))",
   "--output", "starlark", "--starlark:file", cqueryPath]

/-- The scanner loop of lines 236–247: walk the output lines, skip empty
lines and lines already in the seen-set, mark and collect the rest.
Returns the grown seen-set and the collected sources in encounter order. -/
def scanLines : List String → List String → List String × List String
  | scanned, [] => (scanned, [])
  | scanned, t :: ts =>
    if t = "" then scanLines scanned ts
    else if t ∈ scanned then scanLines scanned ts
    else
      let r := scanLines (t :: scanned) ts
      (r.1, t :: r.2)

/-- Line 251, `ccTargets[label].srcs = srcs`: replace the sources of the
entry for `label`.  (On a missing key the Go code would dereference a nil
pointer; the pipeline only calls this with keys of the map.) -/
def setSrcs (cc : List (String × ccTarget)) (label : String) (srcs : List String) :
    List (String × ccTarget) :=
  match List.lookup label cc with
  | some t => (label, ⟨srcs, t.args, t.label⟩) :: cc
  | none => cc

/-- The per-label loop of lines 216–252: run the cquery for each label in
order, panic on command failure, scan its lines against the global
seen-set, and attach the collected sources to the label's target. -/
def scanPhase (env : Env) (workspace cqueryPath : String) :
    List String → List String → List (String × ccTarget) →
    Except String (List (String × ccTarget))
  | _, [], cc => .ok cc
  | scanned, label :: rest, cc =>
    match env.runCommand workspace (cqueryArgv label cqueryPath) with
    | none => .error ("failed to query source paths of " ++ label)
    | some out =>
      let r := scanLines scanned (goScanLines out)
      scanPhase env workspace cqueryPath r.1 rest (setSrcs cc label r.2)

/-! ### Database assembler (lines 254–286) -/

/-- The entries built for one target at lines 257–271: one per source, with
the workspace as directory and the three `-iquote` includes plus the source
path appended to the target's arguments. -/
def entriesFor (ctx : ResolvedCtx) (t : ccTarget) : List compileCommand :=
  t.srcs.map (fun src =>
    ⟨ctx.workspace,
     t.args ++ ["-iquote", ctx.binDir, "-iquote", ctx.executionRoot,
                "-iquote", ctx.outputBaseDir, src],
     src⟩)

/-- The nested emission loops of lines 254–272, iterating labels in order. -/
def emitPhase (ctx : ResolvedCtx) (cc : List (String × ccTarget)) :
    List String → List compileCommand
  | [] => []
  | label :: rest =>
    entriesFor ctx ((List.lookup label cc).getD ⟨[], [], ""⟩) ++ emitPhase ctx cc rest

/-- The distinct keys of the `ccTargets` map (the range of Go's map
iteration at lines 196–200, in an unspecified order; `run` uses this
canonical enumeration, and C8 shows any enumeration order gives the same
output). -/
def ccKeys (cc : List (String × ccTarget)) : List String := (cc.map Prod.fst).dedup

/-- Everything the emission phase needs from the earlier phases. -/
structure PipeState where
  ctx : ResolvedCtx
  labels : List String
  cc : List (String × ccTarget)
deriving DecidableEq

/-- The pipeline of `main` up to the end of the source scan, parameterised
by the enumeration of the `ccTargets` map keys (Go ranges over the map in
unspecified order before sorting). -/
def pipelineWith (enum : List (String × ccTarget) → List String) (env : Env) :
    Except String PipeState :=
  match resolveCtx env with
  | .error m => .error m
  | .ok ctx =>
    match queryMnemonic env ctx.workspace ctx.outputBaseDir ctx.xcodeSDKPath
        ctx.xcodeDeveloperDir "CppCompile" ⟨[], []⟩ with
    | .error m => .error m
    | .ok st1 =>
      match queryMnemonic env ctx.workspace ctx.outputBaseDir ctx.xcodeSDKPath
          ctx.xcodeDeveloperDir "ObjcCompile" st1 with
      | .error m => .error m
      | .ok st2 =>
        let labels := goSortStrings (enum st2.ccTargets)
        match tmpPhase env with
        | .error m => .error m
        | .ok cqueryPath =>
          match scanPhase env ctx.workspace cqueryPath [] labels st2.ccTargets with
          | .error m => .error m
          | .ok cc => .ok ⟨ctx, labels, cc⟩

/-! ### JSON serialisation (model of `json.MarshalIndent(·, "", "  ")`) -/

/-- Lower-case hexadecimal digit. -/
def hexDigitCh (n : Nat) : Char :=
  if n < 10 then Char.ofNat (48 + n) else Char.ofNat (87 + n)

/-- A `\uXXXX` escape for a code point below 0x10000. -/
def uEsc (n : Nat) : List Char :=
  ['\\', 'u', hexDigitCh (n / 4096 % 16), hexDigitCh (n / 256 % 16),
   hexDigitCh (n / 16 % 16), hexDigitCh (n % 16)]

/-- Go `encoding/json` string escaping (with the default HTML escaping). -/
def escCharJSON (c : Char) : List Char :=
  if c = '"' then ['\\', '"']
  else if c = '\\' then ['\\', '\\']
  else if c = '\n' then ['\\', 'n']
  else if c = '\r' then ['\\', 'r']
  else if c = '\t' then ['\\', 't']
  else if c = '<' || c = '>' || c = '&' then uEsc c.toNat
  else if c.toNat < 32 then uEsc c.toNat
  else if c.toNat = 8232 || c.toNat = 8233 then uEsc c.toNat
  else [c]

/-- A JSON string literal for `s`. -/
def escStr (s : String) : String :=
  "\"" ++ (⟨s.data.foldr (fun c acc => escCharJSON c ++ acc) []⟩ : String) ++ "\""

/-- The `arguments` array at indent depth 2. -/
def renderArgs (args : List String) : String :=
  match args with
  | [] => "[]"
  | _ :: _ =>
    "[\n" ++ joinSep ",\n" (args.map (fun a => "      " ++ escStr a)) ++ "\n    ]"

/-- One `compileCommand` object at indent depth 1 (fields in struct order). -/
def renderEntry (e : compileCommand) : String :=
  "\x7b\n    \"directory\": " ++ escStr e.Directory ++
  ",\n    \"arguments\": " ++ renderArgs e.Arguments ++
  ",\n    \"file\": " ++ escStr e.File ++ "\n  \x7d"

/-- Model of `json.MarshalIndent(&compileCommands, "", "  ")`: the nil slice
(no entries were appended) marshals as `null`, otherwise an indented array. -/
def marshalIndentCC (l : List compileCommand) : String :=
  match l with
  | [] => "null"
  | _ :: _ => "[\n" ++ joinSep ",\n" (l.map (fun e => "  " ++ renderEntry e)) ++ "\n]"

/-- The produced output file: its path, its exact byte content, and the
entry list it serialises. -/
structure RunOutput where
  path : String
  content : String
  entries : List compileCommand
deriving DecidableEq

/-- Lines 254–286: assemble the entries in label order, marshal them, and
write `compile_commands.json` under the workspace root. -/
def runWith (enum : List (String × ccTarget) → List String) (env : Env) :
    Except String RunOutput :=
  match pipelineWith enum env with
  | .error m => .error m
  | .ok ps =>
    let entries := emitPhase ps.ctx ps.cc ps.labels
    if env.writeOutOk then
      .ok ⟨goJoin2 ps.ctx.workspace "compile_commands.json", marshalIndentCC entries, entries⟩
    else .error "write failed"

/-- The whole program with the canonical key enumeration. -/
def pipeline : Env → Except String PipeState := pipelineWith ccKeys

/-- The whole program: `main` of `generate_compile_commands.go`. -/
def run : Env → Except String RunOutput := runWith ccKeys

end BCC

namespace BCC

/-! ### Order lemmas for the sort model -/

theorem charsLe_total (a b : List Char) : charsLe a b = true ∨ charsLe b a = true := by
  induction a generalizing b with
  | nil => left; rfl
  | cons x xs ih =>
    cases b with
    | nil => right; rfl
    | cons y ys =>
      rcases lt_trichotomy x y with h | h | h
      · left; simp [charsLe, h]
      · subst h; simpa [charsLe, lt_irrefl] using ih ys
      · right; simp [charsLe, h]

theorem charsLe_antisymm (a b : List Char) (h₁ : charsLe a b = true)
    (h₂ : charsLe b a = true) : a = b := by
  induction a generalizing b with
  | nil =>
    cases b with
    | nil => rfl
    | cons y ys => simp [charsLe] at h₂
  | cons x xs ih =>
    cases b with
    | nil => simp [charsLe] at h₁
    | cons y ys =>
      rcases lt_trichotomy x y with h | h | h
      · simp [charsLe, h, asymm h] at h₂
      · subst h
        simp only [charsLe, lt_irrefl, if_false] at h₁ h₂
        rw [ih ys h₁ h₂]
      · simp [charsLe, h, asymm h] at h₁

theorem charsLe_trans (a b c : List Char) (h₁ : charsLe a b = true)
    (h₂ : charsLe b c = true) : charsLe a c = true := by
  induction a generalizing b c with
  | nil => rfl
  | cons x xs ih =>
    cases b with
    | nil => simp [charsLe] at h₁
    | cons y ys =>
      cases c with
      | nil => simp [charsLe] at h₂
      | cons z zs =>
        simp only [charsLe] at h₁ h₂ ⊢
        rcases lt_trichotomy x y with hxy | hxy | hxy
        · rcases lt_trichotomy y z with hyz | hyz | hyz
          · simp [lt_trans hxy hyz]
          · subst hyz; simp [hxy]
          · simp [hyz, asymm hyz] at h₂
        · subst hxy
          rcases lt_trichotomy x z with hyz | hyz | hyz
          · simp [hyz]
          · subst hyz
            simp only [lt_irrefl, if_false] at h₁ h₂ ⊢
            exact ih ys zs h₁ h₂
          · simp [hyz, asymm hyz] at h₂
        · simp [hxy, asymm hxy] at h₁

theorem goStrLe_total (a b : String) : goStrLe a b = true ∨ goStrLe b a = true :=
  charsLe_total a.data b.data

instance : IsAntisymm String (fun a b => goStrLe a b = true) :=
  ⟨fun a b h₁ h₂ => String.ext (charsLe_antisymm _ _ h₁ h₂)⟩

theorem insertSorted_perm (s : String) (l : List String) :
    List.Perm (insertSorted s l) (s :: l) := by
  induction l with
  | nil => rfl
  | cons t rest ih =>
    simp only [insertSorted]
    split
    · rfl
    · exact (ih.cons t).trans (List.Perm.swap s t rest)

theorem goSortStrings_perm (l : List String) : List.Perm (goSortStrings l) l := by
  induction l with
  | nil => rfl
  | cons s rest ih => exact (insertSorted_perm s (goSortStrings rest)).trans (ih.cons s)

theorem insertSorted_sorted (s : String) (l : List String)
    (h : List.Sorted (fun a b => goStrLe a b = true) l) :
    List.Sorted (fun a b => goStrLe a b = true) (insertSorted s l) := by
  induction l with
  | nil => simp [insertSorted]
  | cons t rest ih =>
    simp only [insertSorted]
    rw [List.sorted_cons] at h
    split
    · rename_i hle
      refine List.sorted_cons.mpr ⟨?_, List.sorted_cons.mpr h⟩
      intro b hb
      rcases List.mem_cons.mp hb with hb' | hb'
      · subst hb'; exact hle
      · exact charsLe_trans _ _ _ hle (h.1 b hb')
    · rename_i hnle
      have hts : goStrLe t s = true := by
        rcases goStrLe_total s t with h' | h'
        · exact absurd h' hnle
        · exact h'
      refine List.sorted_cons.mpr ⟨?_, ih h.2⟩
      intro b hb
      rcases List.mem_cons.mp ((insertSorted_perm s rest).mem_iff.mp hb) with hb' | hb'
      · subst hb'; exact hts
      · exact h.1 b hb'

theorem goSortStrings_sorted (l : List String) :
    List.Sorted (fun a b => goStrLe a b = true) (goSortStrings l) := by
  induction l with
  | nil => simp [goSortStrings]
  | cons s rest ih => exact insertSorted_sorted s _ ih

theorem goSortStrings_eq_of_perm (l₁ l₂ : List String) (h : List.Perm l₁ l₂) :
    goSortStrings l₁ = goSortStrings l₂ :=
  List.eq_of_perm_of_sorted
    ((goSortStrings_perm l₁).trans (h.trans (goSortStrings_perm l₂).symm))
    (goSortStrings_sorted l₁) (goSortStrings_sorted l₂)

/-! ### A concrete run: two C++ targets with a shared header -/

/-- The parsed action graph of the concrete CppCompile aquery: targets
`//a:x` and `//b:y`, one matched compile action each. -/
def agC5 : actionGraphContainer :=
  ⟨[⟨1, "//a:x"⟩, ⟨2, "//b:y"⟩],
   [⟨1, 7, "CppCompile", ["gcc", "A1"]⟩, ⟨2, 7, "CppCompile", ["gcc", "B1"]⟩],
   []⟩

/-- Subprocess oracle of the concrete environment: build info resolves under
`/ws`, the CppCompile aquery returns the tag `AQCPP`, the ObjcCompile aquery
the tag `AQOBJC`, and the per-target cqueries list the sources, `common.h`
being shared by both targets. -/
def runCommandC5 (dir : String) (argv : List String) : Option String :=
  if argv = infoArgv "workspace" then some " /out\n"
  else if argv = aqueryArgv "CppCompile" then some "AQCPP"
  else if argv = aqueryArgv "ObjcCompile" then some "AQOBJC"
  else if argv = cqueryArgv "//a:x" "/tmp/cq/src_cquery.bzl" then some "a.cc\ncommon.h\n"
  else if argv = cqueryArgv "//b:y" "/tmp/cq/src_cquery.bzl" then some "common.h\nb.cc\n"
  else none

/-- JSON-parse oracle of the concrete environment. -/
def parseC5 (out : String) : Option actionGraphContainer :=
  if out = "AQCPP" then some agC5
  else if out = "AQOBJC" then some ⟨[], [], []⟩
  else none

/-- The concrete environment of the end-to-end scenario. -/
def envC5 : Env :=
  ⟨"/ws", "linux", runCommandC5, parseC5, some "/tmp/cq", true, true⟩

/-- The three expected compilation-database entries of the scenario. -/
def c5Entries : List compileCommand :=
  [⟨"/ws", ["clang", "-xc++", "A1", "-iquote", "/out", "-iquote", "/out",
            "-iquote", "/out", "a.cc"], "a.cc"⟩,
   ⟨"/ws", ["clang", "-xc++", "A1", "-iquote", "/out", "-iquote", "/out",
            "-iquote", "/out", "common.h"], "common.h"⟩,
   ⟨"/ws", ["clang", "-xc++", "B1", "-iquote", "/out", "-iquote", "/out",
            "-iquote", "/out", "b.cc"], "b.cc"⟩]

end BCC

namespace BCC

/-! ### Inversion of the pipeline -/

/-- The default (Go zero value) `ccTarget` used for map access. -/
def zeroCC : ccTarget := ⟨[], [], ""⟩

theorem pipelineWith_ok_inv (enum : List (String × ccTarget) → List String) (env : Env)
    (ps : PipeState) (h : pipelineWith enum env = .ok ps) :
    ∃ ctx st1 st2 cqueryPath cc,
      resolveCtx env = .ok ctx ∧
      queryMnemonic env ctx.workspace ctx.outputBaseDir ctx.xcodeSDKPath
        ctx.xcodeDeveloperDir "CppCompile" ⟨[], []⟩ = .ok st1 ∧
      queryMnemonic env ctx.workspace ctx.outputBaseDir ctx.xcodeSDKPath
        ctx.xcodeDeveloperDir "ObjcCompile" st1 = .ok st2 ∧
      tmpPhase env = .ok cqueryPath ∧
      scanPhase env ctx.workspace cqueryPath [] (goSortStrings (enum st2.ccTargets))
        st2.ccTargets = .ok cc ∧
      ps = ⟨ctx, goSortStrings (enum st2.ccTargets), cc⟩ := by
  simp only [pipelineWith] at h
  split at h
  · exact Except.noConfusion h
  rename_i ctx hctx
  split at h
  · exact Except.noConfusion h
  rename_i st1 h1
  split at h
  · exact Except.noConfusion h
  rename_i st2 h2
  split at h
  · exact Except.noConfusion h
  rename_i cqp htmp
  split at h
  · exact Except.noConfusion h
  rename_i cc hscan
  cases h
  exact ⟨ctx, st1, st2, cqp, cc, hctx, h1, h2, htmp, hscan, rfl⟩

theorem run_ok_inv (env : Env) (out : RunOutput) (h : run env = .ok out) :
    ∃ ps, pipeline env = .ok ps ∧
      out.entries = emitPhase ps.ctx ps.cc ps.labels ∧
      out.content = marshalIndentCC (emitPhase ps.ctx ps.cc ps.labels) := by
  simp only [run, runWith] at h
  split at h
  · exact Except.noConfusion h
  rename_i ps hps
  split at h
  · cases h
    exact ⟨ps, hps, rfl, rfl⟩
  · exact Except.noConfusion h

/-! ### Emission lemmas -/

theorem entriesFor_map_file (ctx : ResolvedCtx) (t : ccTarget) :
    (entriesFor ctx t).map compileCommand.File = t.srcs := by
  simp only [entriesFor, List.map_map]
  exact List.map_id t.srcs

theorem emitPhase_eq_flatMap (ctx : ResolvedCtx) (cc : List (String × ccTarget)) :
    ∀ labels : List String,
      emitPhase ctx cc labels =
        labels.flatMap (fun l => entriesFor ctx ((List.lookup l cc).getD zeroCC)) := by
  intro labels
  induction labels with
  | nil => rfl
  | cons l rest ih => simp [emitPhase, ih, zeroCC]

theorem emitPhase_map_file (ctx : ResolvedCtx) (cc : List (String × ccTarget)) :
    ∀ labels : List String,
      (emitPhase ctx cc labels).map compileCommand.File =
        labels.flatMap (fun l => ((List.lookup l cc).getD zeroCC).srcs) := by
  intro labels
  induction labels with
  | nil => rfl
  | cons l rest ih => simp [emitPhase, ih, entriesFor_map_file, zeroCC]

/-! ### Seen-set lemmas for the source scan -/

theorem scanLines_spec (ts : List String) : ∀ scanned : List String,
    (scanLines scanned ts).2.Nodup ∧
    (∀ x ∈ (scanLines scanned ts).2, x ∉ scanned) ∧
    (∀ x, x ∈ scanned → x ∈ (scanLines scanned ts).1) ∧
    (∀ x ∈ (scanLines scanned ts).2, x ∈ (scanLines scanned ts).1) := by
  induction ts with
  | nil => intro scanned; simp [scanLines]
  | cons t ts ih =>
    intro scanned
    by_cases ht : t = ""
    · simpa [scanLines, ht] using ih scanned
    · by_cases hm : t ∈ scanned
      · simpa [scanLines, ht, hm] using ih scanned
      · obtain ⟨ihnd, ihnin, ihgrow, ihin⟩ := ih (t :: scanned)
        simp only [scanLines, if_neg ht, if_neg hm]
        refine ⟨?_, ?_, ?_, ?_⟩
        · exact List.nodup_cons.mpr
            ⟨fun hmem => (ihnin t hmem) (List.mem_cons_self _ _), ihnd⟩
        · intro x hx
          rcases List.mem_cons.mp hx with rfl | hx'
          · exact hm
          · exact fun hxs => (ihnin x hx') (List.mem_cons_of_mem _ hxs)
        · intro x hx
          exact ihgrow x (List.mem_cons_of_mem _ hx)
        · intro x hx
          rcases List.mem_cons.mp hx with rfl | hx'
          · exact ihgrow x (List.mem_cons_self _ _)
          · exact ihin x hx'

theorem lookup_cons_self (k : String) (v : ccTarget) (es : List (String × ccTarget)) :
    List.lookup k ((k, v) :: es) = some v := by
  simp [List.lookup]

theorem lookup_cons_ne (k k' : String) (v : ccTarget) (es : List (String × ccTarget))
    (h : k' ≠ k) : List.lookup k' ((k, v) :: es) = List.lookup k' es := by
  have hb : (k' == k) = false := by
    cases hbe : k' == k
    · rfl
    · exact absurd (eq_of_beq hbe) h
  simp [List.lookup, hb]

theorem lookup_isSome_of_mem_keys (l : String) :
    ∀ cc : List (String × ccTarget), l ∈ cc.map Prod.fst → (List.lookup l cc).isSome := by
  intro cc
  induction cc with
  | nil => intro h; simp at h
  | cons p rest ih =>
    obtain ⟨k, v⟩ := p
    intro h
    by_cases hk : l = k
    · subst hk; rw [lookup_cons_self]; rfl
    · rw [lookup_cons_ne k l v rest hk]
      rcases List.mem_cons.mp h with h' | h'
      · exact absurd h' hk
      · exact ih h'

theorem lookup_setSrcs_self (cc : List (String × ccTarget)) (l : String)
    (srcs : List String) (t : ccTarget) (ht : List.lookup l cc = some t) :
    List.lookup l (setSrcs cc l srcs) = some ⟨srcs, t.args, t.label⟩ := by
  unfold setSrcs
  rw [ht]
  exact lookup_cons_self l _ cc

theorem lookup_setSrcs_other (cc : List (String × ccTarget)) (l l' : String)
    (srcs : List String) (hne : l' ≠ l) :
    List.lookup l' (setSrcs cc l srcs) = List.lookup l' cc := by
  unfold setSrcs
  split
  · exact lookup_cons_ne l l' _ cc hne
  · rfl

theorem setSrcs_isSome (cc : List (String × ccTarget)) (l l' : String) (srcs : List String)
    (h : (List.lookup l' cc).isSome) : (List.lookup l' (setSrcs cc l srcs)).isSome := by
  by_cases hk : l' = l
  · subst hk
    unfold setSrcs
    split
    · rw [lookup_cons_self]; rfl
    · exact h
  · rw [lookup_setSrcs_other cc l l' srcs hk]
    exact h

theorem scanPhase_lookup_stable (env : Env) (ws cqp : String) :
    ∀ (labels scanned : List String) (cc cc' : List (String × ccTarget)),
      scanPhase env ws cqp scanned labels cc = .ok cc' →
      ∀ lbl, lbl ∉ labels → List.lookup lbl cc' = List.lookup lbl cc := by
  intro labels
  induction labels with
  | nil =>
    intro scanned cc cc' h lbl _
    simp only [scanPhase, Except.ok.injEq] at h
    rw [h]
  | cons l rest ih =>
    intro scanned cc cc' h lbl hnot
    simp only [scanPhase] at h
    split at h
    · exact Except.noConfusion h
    rename_i out hout
    have hstep := ih _ _ _ h lbl (fun hr => hnot (List.mem_cons_of_mem _ hr))
    rw [hstep]
    exact lookup_setSrcs_other _ _ _ _ (fun e => hnot (e ▸ List.mem_cons_self l rest))

theorem scanPhase_srcs_nodup (env : Env) (ws cqp : String) :
    ∀ (labels scanned : List String) (cc cc' : List (String × ccTarget)),
      labels.Nodup → (∀ l ∈ labels, (List.lookup l cc).isSome) →
      scanPhase env ws cqp scanned labels cc = .ok cc' →
      (labels.flatMap (fun l => ((List.lookup l cc').getD zeroCC).srcs)).Nodup ∧
      (∀ x ∈ labels.flatMap (fun l => ((List.lookup l cc').getD zeroCC).srcs), x ∉ scanned) := by
  intro labels
  induction labels with
  | nil => intro scanned cc cc' _ _ _; simp
  | cons l rest ih =>
    intro scanned cc cc' hnd hsome h
    simp only [scanPhase] at h
    split at h
    · exact Except.noConfusion h
    rename_i out hout
    obtain ⟨hl_nin, hrest_nd⟩ := List.nodup_cons.mp hnd
    obtain ⟨t, ht⟩ := Option.isSome_iff_exists.mp (hsome l (List.mem_cons_self _ _))
    have hstab := scanPhase_lookup_stable env ws cqp rest _ _ cc' h l hl_nin
    have hsetl := lookup_setSrcs_self cc l (scanLines scanned (goScanLines out)).2 t ht
    have hl_srcs : ((List.lookup l cc').getD zeroCC).srcs =
        (scanLines scanned (goScanLines out)).2 := by
      rw [hstab, hsetl]
      rfl
    have hsome' : ∀ l' ∈ rest, (List.lookup l' (setSrcs cc l
        (scanLines scanned (goScanLines out)).2)).isSome := fun l' hl' =>
      setSrcs_isSome cc l l' _ (hsome l' (List.mem_cons_of_mem _ hl'))
    have ihres := ih _ _ cc' hrest_nd hsome' h
    obtain ⟨snd, snin, sgrow, sin⟩ := scanLines_spec (goScanLines out) scanned
    rw [List.flatMap_cons, hl_srcs]
    constructor
    · refine List.Nodup.append snd ihres.1 ?_
      exact fun x hx₁ hx₂ => ihres.2 x hx₂ (sin x hx₁)
    · intro x hx
      rcases List.mem_append.mp hx with hx' | hx'
      · exact snin x hx'
      · exact fun hxs => ihres.2 x hx' (sgrow x hxs)

end BCC

namespace BCC

/-! ### Prefix and path lemmas -/

theorem listIsPre_append (p : List Char) :
    ∀ l₁ l₂ : List Char, listIsPre p l₁ = true → listIsPre p (l₁ ++ l₂) = true := by
  induction p with
  | nil => intro l₁ l₂ _; rfl
  | cons c cs ih =>
    intro l₁ l₂ h
    cases l₁ with
    | nil => exact absurd h (by simp [listIsPre])
    | cons d ds =>
      simp only [listIsPre, Bool.and_eq_true] at h ⊢
      exact ⟨h.1, ih ds l₂ h.2⟩

theorem goHasPre_append (s t pre : String) (h : goHasPre s pre = true) :
    goHasPre (s ++ t) pre = true := by
  unfold goHasPre at h ⊢
  rw [String.data_append]
  exact listIsPre_append _ _ _ h

theorem goHasPre_slash_append (s : String) : goHasPre ("/" ++ s) "/" = true := by
  unfold goHasPre
  rw [String.data_append]
  rfl

theorem goClean_rooted (p : String) (hp : goHasPre p "/" = true) :
    goHasPre (goClean p) "/" = true := by
  have hpne : p ≠ "" := fun e => absurd (e ▸ hp) (by decide)
  unfold goClean
  rw [if_neg hpne]
  simp only [hp, if_true]
  exact goHasPre_slash_append _

theorem goJoin2_rooted (a b : String) (ha : goHasPre a "/" = true) :
    goHasPre (goJoin2 a b) "/" = true := by
  have hane : a ≠ "" := fun e => absurd (e ▸ ha) (by decide)
  unfold goJoin2
  rw [if_neg hane]
  split
  · exact goClean_rooted _ (goHasPre_append _ _ _ ha)
  · exact goClean_rooted _ (goHasPre_append _ _ _ (goHasPre_append _ _ _ ha))

/-! ### Transformation-loop lemmas -/

theorem removeC_cons_ne (a : String) (rest : List String) (h : ¬a = "-c") :
    removeC (a :: rest) = a :: removeC rest := by
  rw [removeC.eq_def]
  simp [h]

theorem transformLoop_cons_ne (goos sdkPath devDir obd arg : String) (rest : List String)
    (h : ¬arg = "-c") :
    transformLoop goos sdkPath devDir obd (arg :: rest) =
      platformSubst goos sdkPath devDir (rewriteArg obd arg)
        :: transformLoop goos sdkPath devDir obd rest := by
  rw [transformLoop.eq_def]
  simp [h]

theorem transform_loop_eq (goos sdkPath devDir obd : String) (args : List String) :
    transformLoop goos sdkPath devDir obd args =
      (removeC args).map
        (fun arg => platformSubst goos sdkPath devDir (rewriteArg obd arg)) := by
  induction args using removeC.induct with
  | case1 => rfl
  | case2 => rfl
  | case3 head rest2 ih => exact ih
  | case4 head rest2 hne ih =>
    rw [transformLoop_cons_ne goos sdkPath devDir obd head rest2 hne,
      removeC_cons_ne head rest2 hne, List.map_cons, ih]

theorem removeC_not_mem (args : List String) : "-c" ∉ removeC args := by
  induction args using removeC.induct with
  | case1 => decide
  | case2 => decide
  | case3 head rest2 ih => exact ih
  | case4 head rest2 hne ih =>
    rw [removeC_cons_ne head rest2 hne]
    simp only [List.mem_cons]
    exact fun h => h.elim (fun e => hne e.symm) ih

end BCC

namespace BCC

/-! ### Error-propagation lemmas -/

theorem actionsLoop_error_of_missing (goos sdkPath devDir obd n : String)
    (tl : List (Int × String)) :
    ∀ (actions : List action) (cc : List (String × ccTarget)),
      (∃ a ∈ actions, a.Mnemonic = n ∧ List.lookup a.TargetID tl = none) →
      ∃ m, actionsLoop goos sdkPath devDir obd n tl cc actions = .error m := by
  intro actions
  induction actions with
  | nil =>
    rintro cc ⟨a, ha, _⟩
    simp at ha
  | cons a rest ih =>
    rintro cc ⟨b, hb, hbm, hbl⟩
    rcases List.mem_cons.mp hb with rfl | hbr
    · unfold actionsLoop
      rw [if_neg (not_not_intro hbm), hbl]
      exact ⟨_, rfl⟩
    · by_cases hmn : a.Mnemonic = n
      · cases hl : List.lookup a.TargetID tl with
        | none =>
          unfold actionsLoop
          rw [if_neg (not_not_intro hmn), hl]
          exact ⟨_, rfl⟩
        | some lbl =>
          unfold actionsLoop
          rw [if_neg (not_not_intro hmn), hl]
          exact ih _ ⟨b, hbr, hbm, hbl⟩
      · unfold actionsLoop
        rw [if_pos hmn]
        exact ih _ ⟨b, hbr, hbm, hbl⟩

theorem scanPhase_error_of_cmd_fail (env : Env) (ws cqp : String) :
    ∀ (labels scanned : List String) (cc : List (String × ccTarget)),
      (∃ l ∈ labels, env.runCommand ws (cqueryArgv l cqp) = none) →
      ∃ m, scanPhase env ws cqp scanned labels cc = .error m := by
  intro labels
  induction labels with
  | nil =>
    rintro scanned cc ⟨l, hl, _⟩
    simp at hl
  | cons l₀ rest ih =>
    rintro scanned cc ⟨l, hl, hfail⟩
    cases hc : env.runCommand ws (cqueryArgv l₀ cqp) with
    | none => exact ⟨_, by unfold scanPhase; rw [hc]⟩
    | some out =>
      rcases List.mem_cons.mp hl with rfl | hlr
      · rw [hc] at hfail
        exact Option.noConfusion hfail
      · unfold scanPhase
        rw [hc]
        exact ih _ _ ⟨l, hlr, hfail⟩

/-! ### Claim theorems -/

/-- C1: the claim says the build-info resolver runs `bazel info <v>` for every
requested key `v`.  The code at line 71 hardcodes `bazel info workspace` and
ignores `v` (which only appears in the error message), so the execution root,
output base and bazel-bin are all resolved by running `bazel info workspace`:
the claim is right about the obvious intent and the code is wrong.  This
theorem evaluates the code at the failing input `v = "execution_root"`. -/
theorem getBazelInfo_ignores_key :
    infoArgv "execution_root" = ["bazel", "info", "workspace"] ∧
    infoArgv "execution_root" ≠ ["bazel", "info", "execution_root"] ∧
    infoArgv "output_base" ≠ ["bazel", "info", "output_base"] ∧
    infoArgv "bazel-bin" ≠ ["bazel", "info", "bazel-bin"] ∧
    ∀ (env : Env) (ws : String),
      getBazelInfo env ws "execution_root" =
        match env.runCommand ws ["bazel", "info", "workspace"] with
        | none => Except.error "could not get execution_root"
        | some out => Except.ok (goTrimSpace out) :=
  ⟨rfl, by decide, by decide, by decide, fun env ws => rfl⟩

/-- C2: the transformation loop removes every `-c <file>` pair, rewrites
arguments marked `-Ibazel-out` to `-I` plus the path joined under the
output-base directory, rewrites arguments marked `external/` or `bazel-out`
to the path joined under the output-base directory, passes everything else
through unchanged modulo the platform placeholder substitution, and the
joined paths are absolute whenever the output-base directory is. -/
theorem transform_removes_c_and_rewrites (goos sdkPath devDir obd : String)
    (args : List String) :
    (transformLoop goos sdkPath devDir obd args =
      (removeC args).map
        (fun arg => platformSubst goos sdkPath devDir (rewriteArg obd arg))) ∧
    "-c" ∉ removeC args ∧
    (∀ a : String, goHasPre a "-Ibazel-out" = true →
      rewriteArg obd a = "-I" ++ goJoin2 obd (goTrimPre a "-I")) ∧
    (∀ a : String, goHasPre a "-Ibazel-out" = false →
      goHasPre a "external/" = true ∨ goHasPre a "bazel-out" = true →
      rewriteArg obd a = goJoin2 obd a) ∧
    (∀ a : String, goHasPre a "-Ibazel-out" = false → goHasPre a "external/" = false →
      goHasPre a "bazel-out" = false → rewriteArg obd a = a) ∧
    (goHasPre obd "/" = true → ∀ a : String, goHasPre (goJoin2 obd a) "/" = true) := by
  refine ⟨transform_loop_eq goos sdkPath devDir obd args, removeC_not_mem args,
    ?_, ?_, ?_, ?_⟩
  · intro a h
    simp [rewriteArg, h]
  · intro a h1 h2
    rcases h2 with h2 | h2 <;> simp [rewriteArg, h1, h2]
  · intro a h1 h2 h3
    simp [rewriteArg, h1, h2, h3]
  · intro hroot a
    exact goJoin2_rooted obd a hroot

theorem transform_removes_c_and_rewrites_witness :
    rewriteArg "/out" "-Ibazel-out/k8/x.h" =
      "-I" ++ goJoin2 "/out" (goTrimPre "-Ibazel-out/k8/x.h" "-I") ∧
    rewriteArg "/out" "external/lib/a.h" = goJoin2 "/out" "external/lib/a.h" ∧
    rewriteArg "/out" "-DFOO" = "-DFOO" ∧
    goHasPre (goJoin2 "/out" "bazel-out/y.h") "/" = true := by
  have h := transform_removes_c_and_rewrites "linux" "" "" "/out" []
  exact ⟨h.2.2.1 _ (by decide), h.2.2.2.1 _ (by decide) (Or.inl (by decide)),
    h.2.2.2.2.1 _ (by decide) (by decide) (by decide), h.2.2.2.2.2 (by decide) _⟩

/-- C3: across the whole run each source path appears at most once in the
final compilation database: the file fields of the emitted entries carry no
duplicate, even when the same path occurs in several targets' enumeration
output, because a path that entered the seen-set is skipped later. -/
theorem output_files_nodup (env : Env) (out : RunOutput) (h : run env = .ok out) :
    (out.entries.map compileCommand.File).Nodup := by
  obtain ⟨ps, hps, hent, _⟩ := run_ok_inv env out h
  obtain ⟨ctx, st1, st2, cqp, cc, hctx, h1, h2, htmp, hscan, hps_eq⟩ :=
    pipelineWith_ok_inv ccKeys env ps hps
  subst hps_eq
  rw [hent, emitPhase_map_file]
  have hnd : (goSortStrings (ccKeys st2.ccTargets)).Nodup :=
    ((goSortStrings_perm (ccKeys st2.ccTargets)).nodup_iff).mpr (List.nodup_dedup _)
  have hsome : ∀ l ∈ goSortStrings (ccKeys st2.ccTargets),
      (List.lookup l st2.ccTargets).isSome := fun l hl =>
    lookup_isSome_of_mem_keys l st2.ccTargets
      (List.mem_dedup.mp ((goSortStrings_perm (ccKeys st2.ccTargets)).mem_iff.mp hl))
  exact (scanPhase_srcs_nodup env ctx.workspace cqp
    (goSortStrings (ccKeys st2.ccTargets)) [] st2.ccTargets cc hnd hsome hscan).1

/-- C4: the target labels are sorted lexicographically before per-target
enumeration, and the output database is exactly the concatenation, in that
sorted label order, of each target's entries in its source order. -/
theorem labels_sorted_and_output_grouped (env : Env) (ps : PipeState)
    (h : pipeline env = .ok ps) :
    List.Sorted (fun a b => goStrLe a b = true) ps.labels ∧
    ∀ out, run env = .ok out →
      out.entries = ps.labels.flatMap
        (fun l => entriesFor ps.ctx ((List.lookup l ps.cc).getD zeroCC)) := by
  constructor
  · obtain ⟨ctx, st1, st2, cqp, cc, _, _, _, _, _, hps_eq⟩ :=
      pipelineWith_ok_inv ccKeys env ps h
    subst hps_eq
    exact goSortStrings_sorted _
  · intro out hout
    obtain ⟨ps', hps', hent, _⟩ := run_ok_inv env out hout
    have hpe : ps = ps' := by
      have hh := h.symm.trans hps'
      injection hh
    subst hpe
    rw [hent, emitPhase_eq_flatMap]

/-- C5: in the concrete scenario with the two qualifying targets `//a:x`
(enumerating `a.cc` then `common.h`) and `//b:y` (enumerating `common.h`
then `b.cc`), the run produces exactly three entries, `common.h` appears in
exactly one entry, and that entry carries the arguments of `//a:x`, the
first target in sorted label order. -/
theorem two_target_scenario :
    (run envC5).map RunOutput.entries = .ok c5Entries ∧
    c5Entries.length = 3 ∧
    (c5Entries.filter (fun e => e.File == "common.h")).length = 1 ∧
    (c5Entries.filter (fun e => e.File == "common.h")).all
      (fun e => e.Arguments.take 3 == ["clang", "-xc++", "A1"]) = true :=
  ⟨by rfl, by rfl, by rfl, by rfl⟩

/-- C6: the entries emitted for one target have file fields that enumerate
exactly that target's (deduplicated) source list: the file projection of the
target's entries is its source list, so there is exactly one entry per
source, every entry's file is in the source set, and an empty source set
contributes no entries. -/
theorem entries_match_sources (ctx : ResolvedCtx) (t : ccTarget) :
    (entriesFor ctx t).map compileCommand.File = t.srcs ∧
    (entriesFor ctx t).length = t.srcs.length ∧
    ∀ e ∈ entriesFor ctx t, e.File ∈ t.srcs := by
  refine ⟨entriesFor_map_file ctx t, by simp [entriesFor], ?_⟩
  intro e he
  have h := List.mem_map_of_mem compileCommand.File he
  rwa [entriesFor_map_file] at h

theorem entries_match_sources_witness :
    (⟨"/ws", ["x", "-iquote", "/b", "-iquote", "/e", "-iquote", "/o", "a.cc"], "a.cc"⟩ :
      compileCommand).File ∈ (⟨["a.cc"], ["x"], ""⟩ : ccTarget).srcs :=
  (entries_match_sources ⟨"/ws", "/e", "/o", "/b", "", ""⟩ ⟨["a.cc"], ["x"], ""⟩).2.2
    _ (by decide)

/-- C7: every detected failure aborts the run: a failed aquery command, an
unparsable aquery payload, a matched action whose target id has no label, or
a failed cquery command each produce an error, and a pipeline error
propagates to the whole run, which then produces no output file. -/
theorem failures_abort_run (env : Env) (ws obd sdkPath devDir n cqp : String)
    (st : StM) (labels scanned : List String) (cc : List (String × ccTarget)) :
    (env.runCommand ws (aqueryArgv n) = none →
      queryMnemonic env ws obd sdkPath devDir n st = .error "failed to run Bazel") ∧
    (∀ out, env.runCommand ws (aqueryArgv n) = some out →
      env.parseActionGraph out = none →
      queryMnemonic env ws obd sdkPath devDir n st =
        .error "failed to parse aquery output") ∧
    (∀ out c, env.runCommand ws (aqueryArgv n) = some out →
      env.parseActionGraph out = some c →
      (∃ a ∈ c.Actions, a.Mnemonic = n ∧
        List.lookup a.TargetID (addTargets st.targetLabels c.Targets) = none) →
      ∃ m, queryMnemonic env ws obd sdkPath devDir n st = .error m) ∧
    ((∃ l ∈ labels, env.runCommand ws (cqueryArgv l cqp) = none) →
      ∃ m, scanPhase env ws cqp scanned labels cc = .error m) ∧
    (∀ m, pipeline env = .error m → run env = .error m) := by
  refine ⟨?_, ?_, ?_, ?_, ?_⟩
  · intro h
    simp only [queryMnemonic, h]
  · intro out h1 h2
    simp only [queryMnemonic, h1, h2]
  · intro out c h1 h2 hex
    simp only [queryMnemonic, h1, h2]
    obtain ⟨m, hm⟩ := actionsLoop_error_of_missing env.goos sdkPath devDir obd n
      (addTargets st.targetLabels c.Targets) c.Actions st.ccTargets hex
    exact ⟨m, by simp only [hm]⟩
  · exact scanPhase_error_of_cmd_fail env ws cqp labels scanned cc
  · intro m h
    simp only [pipeline] at h
    simp only [run, runWith, h]

/-- The environment in which every external command fails. -/
def envBad : Env := ⟨"", "linux", fun _ _ => none, fun _ => none, none, false, false⟩

theorem failures_abort_run_witness :
    queryMnemonic envBad "w" "o" "" "" "CppCompile" ⟨[], []⟩ =
      .error "failed to run Bazel" ∧
    (∃ m, scanPhase envBad "w" "p" [] ["//a:x"] [] = .error m) ∧
    run envBad = .error "could not get workspace" :=
  ⟨(failures_abort_run envBad "w" "o" "" "" "CppCompile" "p" ⟨[], []⟩ ["//a:x"] [] []).1 rfl,
   (failures_abort_run envBad "w" "o" "" "" "CppCompile" "p"
      ⟨[], []⟩ ["//a:x"] [] []).2.2.2.1 ⟨"//a:x", List.mem_cons_self _ _, rfl⟩,
   (failures_abort_run envBad "w" "o" "" "" "CppCompile" "p"
      ⟨[], []⟩ ["//a:x"] [] []).2.2.2.2 "could not get workspace" (by rfl)⟩

/-- C8: the pipeline is deterministic.  With all external inputs fixed (the
same `Env`: environment variable, platform, and every command's byte
output), the produced output — including the exact bytes of
`compile_commands.json` — does not depend on the order in which Go's map
iteration enumerates the target labels, because the labels are sorted:
any two enumerations of the key set give identical results. -/
theorem run_deterministic_under_map_order (env : Env)
    (e₁ e₂ : List (String × ccTarget) → List String)
    (h₁ : ∀ m, List.Perm (e₁ m) (ccKeys m)) (h₂ : ∀ m, List.Perm (e₂ m) (ccKeys m)) :
    runWith e₁ env = runWith e₂ env := by
  have L : ∀ m, goSortStrings (e₁ m) = goSortStrings (e₂ m) := fun m =>
    goSortStrings_eq_of_perm _ _ ((h₁ m).trans (h₂ m).symm)
  have P : pipelineWith e₁ env = pipelineWith e₂ env := by
    unfold pipelineWith
    simp only [L]
  unfold runWith
  rw [P]

/-- A second enumeration of the map keys, in reversed order. -/
def revKeys : List (String × ccTarget) → List String := fun m => (ccKeys m).reverse

theorem run_deterministic_under_map_order_witness :
    runWith ccKeys envC5 = runWith revKeys envC5 :=
  run_deterministic_under_map_order envC5 ccKeys revKeys
    (fun _ => List.Perm.refl _) (fun m => (ccKeys m).reverse_perm)

/-- C9: for every matched action the first element of its argument list is
dropped (the result does not depend on it) and replaced by a prefix that
depends only on the mnemonic: `["clang", "-xc++"]` for `CppCompile`,
`["clang", "-xobjective-c++"]` for `ObjcCompile`, and the empty prefix for
any other mnemonic. -/
theorem mnemonic_seed_replaces_compiler (goos sdkPath devDir obd n : String)
    (argv : List String) :
    processActionArgs goos sdkPath devDir obd n argv =
      mnemonicArgsInit n ++ transformLoop goos sdkPath devDir obd (argv.drop 1) ∧
    (∀ h₁ h₂ : String, ∀ t : List String,
      processActionArgs goos sdkPath devDir obd n (h₁ :: t) =
        processActionArgs goos sdkPath devDir obd n (h₂ :: t)) ∧
    mnemonicArgsInit "CppCompile" = ["clang", "-xc++"] ∧
    mnemonicArgsInit "ObjcCompile" = ["clang", "-xobjective-c++"] ∧
    (n ≠ "CppCompile" → n ≠ "ObjcCompile" → mnemonicArgsInit n = []) := by
  refine ⟨rfl, fun h₁ h₂ t => rfl, rfl, rfl, ?_⟩
  intro hc ho
  unfold mnemonicArgsInit
  rw [if_neg ho, if_neg hc]

theorem mnemonic_seed_replaces_compiler_witness : mnemonicArgsInit "GoCompile" = [] :=
  (mnemonic_seed_replaces_compiler "linux" "" "" "/o" "GoCompile" []).2.2.2.2
    (by decide) (by decide)

/-- Capacity of the `args` slice of a matched action, as the Go runtime
builds it: the two-element composite literal of lines 162–164 has
`len = cap = 2`, and each single-element `append` of line 183 keeps the
capacity while there is room and doubles it otherwise (the Go small-slice
growth rule; the power-of-two byte sizes of a `[]string` are exact
allocation size classes, so no rounding changes the doubling). -/
def goArgsCap : Nat → Nat
  | 0 => 2
  | 1 => 2
  | 2 => 2
  | n + 3 =>
    let c := goArgsCap (n + 2)
    if n + 3 ≤ c then c else 2 * c

/-- The entries emitted for one target under real Go slice semantics for
`append(target.args, "-iquote", …, src)` at lines 261–269.  The
seven-element append fits in the backing array of `target.args` iff
`cap ≥ len + 7`.  When it does not fit, each loop iteration allocates a
fresh array and the entries are exactly `entriesFor`.  When it fits, every
iteration writes the same seven backing-array slots and the slices stored
in the entries alias them; marshalling happens only after the loop (line
274), so every entry of the target then shows the last iteration's seven
trailing elements, ending with the target's *last* source. -/
def entriesForGo (ctx : ResolvedCtx) (t : ccTarget) : List compileCommand :=
  if goArgsCap t.args.length ≥ t.args.length + 7 then
    t.srcs.map (fun src =>
      ⟨ctx.workspace,
       t.args ++ ["-iquote", ctx.binDir, "-iquote", ctx.executionRoot,
                  "-iquote", ctx.outputBaseDir, t.srcs.getLast?.getD src],
       src⟩)
  else
    entriesFor ctx t

/-- A resolved context for the aliasing scenario. -/
def ctxBug : ResolvedCtx := ⟨"/ws", "/e", "/o", "/b", "", ""⟩

/-- The failing target: a CppCompile action with seven transformed tail
arguments, so `target.args` has length 9 and capacity 16 (slack 7 ≥ 7), and
two enumerated sources. -/
def tBug : ccTarget :=
  ⟨["a.cc", "common.h"],
   ["clang", "-xc++", "A1", "A2", "A3", "A4", "A5", "A6", "A7"], ""⟩

/-- The same target with one more argument: length 10, capacity 16, slack 6,
so the seven-element append reallocates and no aliasing occurs. -/
def tNoAlias : ccTarget :=
  ⟨["a.cc", "common.h"],
   ["clang", "-xc++", "A1", "A2", "A3", "A4", "A5", "A6", "A7", "A8"], ""⟩

/-- C10: the claim reads lines 254–272 at value level — every emitted entry
carries the resolved workspace as directory and its target's arguments plus
seven trailing elements ending in the entry's *own* source file.  That is
the evident intent: the loop appends each entry's own `src` in the same
iteration that sets its `File`, and a compilation database is useless
otherwise.  The code violates it: whenever
`cap(target.args) − len(target.args) ≥ 7` — realizable, e.g. capacity 16 at
length 9 — the seven-element `append` of lines 261–269 reuses the backing
array of `target.args` for every source of the target, so after the loop
every such entry ends with the target's last source.  This theorem
evaluates the faithful slice-semantics model at the failing input: the
capacity at length 9 is 16, the entry for `a.cc` ends with `common.h`
(while its file field stays `a.cc`), and one extra argument (slack 6)
restores the claimed own-source tail. -/
theorem entry_shape_aliasing_bug :
    goArgsCap 9 = 16 ∧
    (entriesForGo ctxBug tBug).map (fun e => (e.File, e.Arguments.getLast?)) =
      [("a.cc", some "common.h"), ("common.h", some "common.h")] ∧
    (entriesForGo ctxBug tBug).map compileCommand.File = ["a.cc", "common.h"] ∧
    (entriesForGo ctxBug tNoAlias).map (fun e => (e.File, e.Arguments.getLast?)) =
      [("a.cc", some "a.cc"), ("common.h", some "common.h")] :=
  ⟨rfl, by decide, by decide, by decide⟩

/-- The concrete scenario's pipeline state. -/
def psC5 : PipeState := (pipeline envC5).toOption.getD ⟨⟨"", "", "", "", "", ""⟩, [], []⟩

/-- The concrete scenario's run output. -/
def outC5 : RunOutput := (run envC5).toOption.getD ⟨"", "", []⟩

theorem output_files_nodup_witness :
    (outC5.entries.map compileCommand.File).Nodup :=
  output_files_nodup envC5 outC5 (by rfl)

theorem labels_sorted_and_output_grouped_witness :
    List.Sorted (fun a b => goStrLe a b = true) psC5.labels ∧
    outC5.entries = psC5.labels.flatMap
      (fun l => entriesFor psC5.ctx ((List.lookup l psC5.cc).getD zeroCC)) :=
  ⟨(labels_sorted_and_output_grouped envC5 psC5 (by rfl)).1,
   (labels_sorted_and_output_grouped envC5 psC5 (by rfl)).2 outC5 (by rfl)⟩

end BCC
